import Mathlib

/-!
Verification of the brand/BOI reconciliation pipeline (main.py).

The pipeline is embedded shallowly: a pandas DataFrame becomes a list of
column names plus a list of rows, a cell is `Option String` (None models
NaN/missing), and each pipeline function returns `Except String DataFrame`
so that the KeyError/ValueError aborts of the Python code are explicit.
-/

abbrev Cell := Option String

structure DataFrame where
  cols : List String
  rows : List (List Cell)
deriving DecidableEq, Repr

/-- Rectangularity: every row has one cell per column (always true of a
real pandas frame). -/
abbrev DataFrame.wf (df : DataFrame) : Prop :=
  ∀ r ∈ df.rows, r.length = df.cols.length

/-- Index of the first column named `c` (pandas label lookup). -/
def colIdx : List String → String → Option Nat
  | [], _ => none
  | c0 :: rest, c => if c0 = c then some 0 else (colIdx rest c).map (· + 1)

/-- `row.get(c)` semantics: None when the column is absent, the cell
otherwise (`df[c]` on a present column reads the same cell). -/
def getCell (cols : List String) (row : List Cell) (c : String) : Cell :=
  match colIdx cols c with
  | some i => row.getD i none
  | none => none

def getCol (df : DataFrame) (c : String) : List Cell :=
  df.rows.map (fun r => getCell df.cols r c)

/-- `df[c] = f(row)`: overwrite the column in place when present,
append it otherwise (pandas column assignment). -/
def setColWith (df : DataFrame) (c : String) (f : List Cell → Cell) : DataFrame :=
  match colIdx df.cols c with
  | some i => ⟨df.cols, df.rows.map (fun r => r.set i (f r))⟩
  | none => ⟨df.cols ++ [c], df.rows.map (fun r => r ++ [f r])⟩

/-- Python `str.isspace` characters relevant to the `\s` regex class. -/
def isPySpace (c : Char) : Bool :=
  c = ' ' || c = '\t' || c = '\n' || c = '\r' || c = '\x0b' || c = '\x0c'

/-- Python `s.split(sep)` for a one-character separator. -/
def splitChar (sep : Char) : List Char → List (List Char)
  | [] => [[]]
  | c :: rest =>
    match splitChar sep rest with
    | [] => [[]]
    | p :: ps => if c = sep then [] :: p :: ps else (c :: p) :: ps

/-- Python `sep.join(parts)` for a one-character separator. -/
def joinChar (sep : Char) : List (List Char) → List Char
  | [] => []
  | [p] => p
  | p :: ps => p ++ sep :: joinChar sep ps

/-- Python `str.strip()`: drop leading and trailing whitespace. -/
def pyStrip (l : List Char) : List Char :=
  ((l.dropWhile isPySpace).reverse.dropWhile isPySpace).reverse

def stripTrailingSpaces (l : List Char) : List Char :=
  (l.reverse.dropWhile (· = ' ')).reverse

/-- `re.sub(' +$', '', s)`: strip trailing spaces; `$` in Python also
matches just before a final newline. -/
def pyReplaceTrailingSpaces (s : String) : String :=
  if s.data.getLast? = some '\n' then
    ⟨stripTrailingSpaces s.data.dropLast ++ ['\n']⟩
  else
    ⟨stripTrailingSpaces s.data⟩

/-- `.str.extract(r'^([^\[\(]+)').astype(str)` applied to one cell: the
nonempty leading run of characters other than `[` and `(`; a null cell or
a failed match becomes NaN, which `astype(str)` renders as the string
"nan". -/
def extractAstype (c : Cell) : String :=
  match c with
  | none => "nan"
  | some s =>
    match s.data.takeWhile (fun ch => !(ch = '[' || ch = '(')) with
    | [] => "nan"
    | l => ⟨l⟩

/-- check_gbe_match from main.py: Missing Data when either field is
null/absent, else compare `brand.split('(')[0].strip()` as a prefix of
the group entity. -/
def check_gbe_match (brand gbe : Cell) : String :=
  match brand, gbe with
  | some b, some g =>
    let brandClean := pyStrip ((splitChar '(' b.data).headD [])
    if brandClean.isPrefixOf g.data then "Correct GBE" else "Incorrect GBE"
  | _, _ => "Missing Data"

/-- One `re.sub(r'([^\s])(\()', r'\1 (', part)` pass: left-to-right,
non-overlapping replacement of a non-space character followed by `(`. -/
def subSpacePass : List Char → List Char
  | [] => []
  | [c] => [c]
  | c1 :: c2 :: rest =>
    if !isPySpace c1 && c2 = '(' then c1 :: ' ' :: '(' :: subSpacePass rest
    else c1 :: subSpacePass (c2 :: rest)

/-- fix_spacing from main.py: null passes through; otherwise split on
`;`, run the regex pass on each part, rejoin with `;`. -/
def fix_spacing (v : Cell) : Cell :=
  match v with
  | none => none
  | some s => some ⟨joinChar ';' ((splitChar ';' s.data).map subSpacePass)⟩

def brandTokens (s : String) : List (List Char) := splitChar ';' s.data

/-- Number of columns produced by `.str.split(';', expand=True)`: the
maximum token count over non-null values (a null value occupies a single
NaN, an empty frame produces no columns). -/
def bvWidth (vals : List Cell) : Nat :=
  vals.foldl (fun m c => max m (match c with | none => 1 | some s => (brandTokens s).length)) 0

/-- The expanded split of one BRAND_VALIDATED cell in the width-3 case:
null expands to three NaNs, shorter values are padded with NaN. -/
def splitRow3 (c : Cell) : List Cell :=
  match c with
  | none => [none, none, none]
  | some s =>
    let ts := (brandTokens s).map (fun t => some (⟨t⟩ : String))
    ts ++ List.replicate (3 - ts.length) none

/-- split_brand_columns from main.py.  With BRAND_VALIDATED present, the
expanded split has `bvWidth` columns and the assignment
`brand_split.columns = [3 names]` raises ValueError unless that width is
exactly 3; with only BRAND_1 present the column is copied verbatim;
with neither, KeyError. -/
def split_brand_columns (df : DataFrame) : Except String DataFrame :=
  if "BRAND_VALIDATED" ∈ df.cols then
    if bvWidth (getCol df "BRAND_VALIDATED") = 3 then
      Except.ok ⟨df.cols ++ ["BOI_VALIDATED", "BRAND1_VALIDATED", "GBE_VALIDATED"],
        df.rows.map (fun r => r ++ splitRow3 (getCell df.cols r "BRAND_VALIDATED"))⟩
    else Except.error "ValueError: Length mismatch assigning brand_split.columns"
  else if "BRAND_1" ∈ df.cols then
    Except.ok (setColWith df "BRAND1_VALIDATED" (fun r => getCell df.cols r "BRAND_1"))
  else Except.error "KeyError: Neither BRAND_VALIDATED nor BRAND_1 found in DataFrame."

/-- String concatenation `SUPER_GROUP + " " + BRAND_1_CLEAN` with pandas
null propagation: NaN + anything = NaN. -/
def joinKeyCell (sg clean : Cell) : Cell :=
  match sg, clean with
  | some a, some b => some (a ++ " " ++ b)
  | _, _ => none

/-- clean_and_merge_supergroup from main.py: two assignments to
BRAND_1_CLEAN (extract+astype, then trailing-space replace), then the
SG_B1 join key from SUPER_GROUP or SUPER_GROUP_DSCR when present. -/
def clean_and_merge_supergroup (df : DataFrame) : Except String DataFrame :=
  if "BRAND1_VALIDATED" ∈ df.cols then
    let df1 := setColWith df "BRAND_1_CLEAN"
      (fun r => some (extractAstype (getCell df.cols r "BRAND1_VALIDATED")))
    let df2 := setColWith df1 "BRAND_1_CLEAN"
      (fun r => (getCell df1.cols r "BRAND_1_CLEAN").map pyReplaceTrailingSpaces)
    if "SUPER_GROUP" ∈ df2.cols then
      Except.ok (setColWith df2 "SG_B1"
        (fun r => joinKeyCell (getCell df2.cols r "SUPER_GROUP") (getCell df2.cols r "BRAND_1_CLEAN")))
    else if "SUPER_GROUP_DSCR" ∈ df2.cols then
      Except.ok (setColWith df2 "SG_B1"
        (fun r => joinKeyCell (getCell df2.cols r "SUPER_GROUP_DSCR") (getCell df2.cols r "BRAND_1_CLEAN")))
    else Except.ok df2
  else Except.error "KeyError: BRAND1_VALIDATED"

/-- Lexicographic code-point comparison of strings (Python `s1 < s2`,
the order pandas sorts object columns by), structurally recursive so
that it evaluates. -/
def lexLt : List Char → List Char → Bool
  | [], [] => false
  | [], _ :: _ => true
  | _ :: _, [] => false
  | a :: s, b :: t =>
    if a.toNat < b.toNat then true
    else if b.toNat < a.toNat then false
    else lexLt s t

def pyStrLt (a b : String) : Prop := lexLt a.data b.data = true

instance : DecidableRel pyStrLt := fun a b =>
  inferInstanceAs (Decidable (lexLt a.data b.data = true))

abbrev BrandPair := String × String

abbrev Entry := BrandPair × Nat

/-- Ascending lexicographic order on (key, owner): the ordering of the
output of `groupby(['SG_B1','BRAND_OWNER_INTERNATIONAL']).size()`. -/
def ltPair (p q : BrandPair) : Prop := pyStrLt p.1 q.1 ∨ (p.1 = q.1 ∧ pyStrLt p.2 q.2)

instance : DecidableRel ltPair := fun p q =>
  inferInstanceAs (Decidable (pyStrLt p.1 q.1 ∨ (p.1 = q.1 ∧ pyStrLt p.2 q.2)))

/-- `sort_values(['SG_B1','count'], ascending=[True, False])` order. -/
def lt2 (a b : Entry) : Prop := pyStrLt a.1.1 b.1.1 ∨ (a.1.1 = b.1.1 ∧ b.2 < a.2)

instance : DecidableRel lt2 := fun a b =>
  inferInstanceAs (Decidable (pyStrLt a.1.1 b.1.1 ∨ (a.1.1 = b.1.1 ∧ b.2 < a.2)))

/-- Insert into a sorted list, after any element it does not strictly
precede (so the fold below is a stable sort, as pandas' lexsort is). -/
def insSorted {α : Type} (r : α → α → Prop) [DecidableRel r] (a : α) : List α → List α
  | [] => [a]
  | b :: l => if r a b then a :: b :: l else b :: insSorted r a l

def sortIns {α : Type} (r : α → α → Prop) [DecidableRel r] (l : List α) : List α :=
  l.foldl (fun acc x => insSorted r x acc) []

/-- The (key, owner) pairs entering the groupby: pandas drops any row in
which either grouping key is NaN. -/
def validPairs (df : DataFrame) : List BrandPair :=
  df.rows.filterMap (fun r =>
    match getCell df.cols r "SG_B1", getCell df.cols r "BRAND_OWNER_INTERNATIONAL" with
    | some k, some o => some (k, o)
    | _, _ => none)

/-- `groupby([...]).size().reset_index(name='count')`: one row per
distinct pair, sorted ascending, with its multiplicity. -/
def groupCounts (df : DataFrame) : List Entry :=
  (sortIns ltPair (validPairs df).dedup).map (fun p => (p, (validPairs df).count p))

/-- `drop_duplicates(subset=['SG_B1'])` (keep='first'). -/
def dropDupKeys : List Entry → List String → List Entry
  | [], _ => []
  | e :: es, seen =>
    if e.1.1 ∈ seen then dropDupKeys es seen
    else e :: dropDupKeys es (e.1.1 :: seen)

def suggestEntries (df : DataFrame) : List Entry :=
  dropDupKeys (sortIns lt2 (groupCounts df)) []

/-- generate_boi_suggest from main.py; KeyError when a groupby column is
absent. -/
def generate_boi_suggest (df : DataFrame) : Except String DataFrame :=
  if "SG_B1" ∈ df.cols ∧ "BRAND_OWNER_INTERNATIONAL" ∈ df.cols then
    Except.ok ⟨["SG_B1", "BOI_SUGGEST"],
      (suggestEntries df).map (fun e => [some e.1.1, some e.1.2])⟩
  else Except.error "KeyError: SG_B1 or BRAND_OWNER_INTERNATIONAL missing for groupby"

/-- One primary row of the left merge on SG_B1: the matching reference
rows contribute their non-key cells, an unmatched row gets NaN.  The
`==` on cells makes NaN match NaN, as pandas merge keys do. -/
def mergeRow (euCols : List String) (bdf : DataFrame) (nonkey : List String)
    (r : List Cell) : List (List Cell) :=
  let k := getCell euCols r "SG_B1"
  let ms := bdf.rows.filter (fun br => decide (getCell bdf.cols br "SG_B1" = k))
  if ms.isEmpty then [r ++ nonkey.map (fun _ => (none : Cell))]
  else ms.map (fun br => r ++ nonkey.map (fun c => getCell bdf.cols br c))

/-- `fillna` of one cell at column index `i`. -/
def fillAt (i : Nat) (v : Cell) (r : List Cell) : List Cell :=
  match r.getD i none with
  | none => r.set i v
  | some _ => r

/-- merge_boi_suggest from main.py: left merge on SG_B1, then fill null
BOI_SUGGEST cells with the sentinel string. -/
def merge_boi_suggest (eu bdf : DataFrame) : Except String DataFrame :=
  if "SG_B1" ∈ eu.cols ∧ "SG_B1" ∈ bdf.cols then
    let nonkey := bdf.cols.filter (fun c => decide (c ≠ "SG_B1"))
    let cols := eu.cols ++ nonkey
    let rows := eu.rows.flatMap (mergeRow eu.cols bdf nonkey)
    match colIdx cols "BOI_SUGGEST" with
    | some i => Except.ok ⟨cols, rows.map (fillAt i (some "SG_B1 not present in OGRDS"))⟩
    | none => Except.error "KeyError: BOI_SUGGEST"
  else Except.error "KeyError: SG_B1"

/-- apply_spacing_fix from main.py: KeyError when BRAND_VALIDATED is
absent (the EU fallback path always lacks it). -/
def apply_spacing_fix (df : DataFrame) : Except String DataFrame :=
  if "BRAND_VALIDATED" ∈ df.cols then
    Except.ok (setColWith df "BRAND_VALIDATED_FIXED"
      (fun r => fix_spacing (getCell df.cols r "BRAND_VALIDATED")))
  else Except.error "KeyError: BRAND_VALIDATED"

/-- apply_gbe_validation from main.py: `row.get` never raises, a missing
column reads as None. -/
def apply_gbe_validation (df : DataFrame) : DataFrame :=
  setColWith df "GBE_STATUS"
    (fun r => some (check_gbe_match (getCell df.cols r "BRAND1_VALIDATED")
      (getCell df.cols r "GBE_VALIDATED")))

/-- process_pipeline from main.py. -/
def process_pipeline (eu og : DataFrame) : Except String DataFrame := do
  let eu1 ← split_brand_columns eu
  let og1 ← split_brand_columns og
  let eu2 ← clean_and_merge_supergroup eu1
  let og2 ← clean_and_merge_supergroup og1
  let b ← generate_boi_suggest og2
  let eu3 ← merge_boi_suggest eu2 b
  let eu4 ← apply_spacing_fix eu3
  Except.ok (apply_gbe_validation eu4)

/-- The join of the strict sort order with input order on ties: what a
stable sort by `lt2` guarantees when its input was sorted by `ltPair` on
the first components. -/
def tieQ (a b : Entry) : Prop :=
  lt2 a b ∨ (¬ lt2 a b ∧ ¬ lt2 b a ∧ ltPair a.1 b.1)

/-- No two adjacent open parentheses (the inputs on which one regex pass
reaches a fixed point). -/
def noAdjParens : List Char → Bool
  | [] => true
  | [_] => true
  | a :: b :: rest => !(a = '(' && b = '(') && noAdjParens (b :: rest)

/-- Every open parenthesis is preceded by a whitespace character (the
strings the regex pass leaves unchanged). -/
def parensSpaced : List Char → Bool
  | [] => true
  | [_] => true
  | a :: b :: rest => (if b = '(' then isPySpace a else true) && parensSpaced (b :: rest)

/-! ## Basic list and column-lookup lemmas -/

theorem getD_set_self {α : Type} (l : List α) (i : Nat) (v d : α) (h : i < l.length) :
    (l.set i v).getD i d = v := by
  simp [List.getD_eq_getElem?_getD, List.getElem?_set_self h]

theorem getD_set_ne {α : Type} (l : List α) {i j : Nat} (h : i ≠ j) (v d : α) :
    (l.set i v).getD j d = l.getD j d := by
  simp [List.getD_eq_getElem?_getD, List.getElem?_set_ne h]

theorem getD_append_len {α : Type} (l : List α) (v d : α) :
    (l ++ [v]).getD l.length d = v := by
  simp [List.getD_eq_getElem?_getD, List.getElem?_append]

theorem set_append_len {α : Type} (l : List α) (x v : α) :
    (l ++ [x]).set l.length v = l ++ [v] := by
  induction l with
  | nil => rfl
  | cons a t ih => simp [List.set, ih]

theorem colIdx_lt_length : ∀ {cols : List String} {c : String} {i : Nat},
    colIdx cols c = some i → i < cols.length := by
  intro cols
  induction cols with
  | nil => intro c i h; simp [colIdx] at h
  | cons c0 rest ih =>
    intro c i h
    by_cases hc : c0 = c
    · simp [colIdx, hc] at h
      simp [← h]
    · cases hrec : colIdx rest c with
      | none => simp [colIdx, hc, hrec] at h
      | some j =>
        simp [colIdx, hc, hrec] at h
        have := ih hrec
        simp only [List.length_cons]
        omega

theorem colIdx_get : ∀ {cols : List String} {c : String} {i : Nat},
    colIdx cols c = some i → cols.getD i "" = c := by
  intro cols
  induction cols with
  | nil => intro c i h; simp [colIdx] at h
  | cons c0 rest ih =>
    intro c i h
    by_cases hc : c0 = c
    · simp [colIdx, hc] at h
      simp [← h, hc]
    · cases hrec : colIdx rest c with
      | none => simp [colIdx, hc, hrec] at h
      | some j =>
        simp [colIdx, hc, hrec] at h
        rw [← h]
        simpa using ih hrec

theorem colIdx_eq_none_iff {cols : List String} {c : String} :
    colIdx cols c = none ↔ c ∉ cols := by
  induction cols with
  | nil => simp [colIdx]
  | cons c0 rest ih =>
    by_cases hc : c0 = c
    · simp [colIdx, hc]
    · simp [colIdx, hc, ih]
      intro h
      exact fun he => hc he.symm

theorem colIdx_append_of_some {cols l : List String} {c : String} {i : Nat}
    (h : colIdx cols c = some i) : colIdx (cols ++ l) c = some i := by
  induction cols generalizing i with
  | nil => simp [colIdx] at h
  | cons c0 rest ih =>
    by_cases hc : c0 = c
    · simp [colIdx, hc] at h ⊢
      exact h
    · cases hrec : colIdx rest c with
      | none => simp [colIdx, hc, hrec] at h
      | some j =>
        simp [colIdx, hc, hrec] at h
        simp [colIdx, hc, ih hrec]
        exact h

theorem colIdx_append_self {cols : List String} {c : String} (h : c ∉ cols) :
    colIdx (cols ++ [c]) c = some cols.length := by
  induction cols with
  | nil => simp [colIdx]
  | cons c0 rest ih =>
    have hc : c0 ≠ c := by
      intro he
      exact h (by simp [he])
    simp [colIdx, hc, ih (fun hm => h (by simp [hm]))]

theorem colIdx_append_none {cols l : List String} {c : String}
    (h1 : c ∉ cols) (h2 : c ∉ l) : colIdx (cols ++ l) c = none := by
  rw [colIdx_eq_none_iff]
  simp [h1, h2]

/-! ## setColWith / getCol lemmas -/

theorem setColWith_wf {df : DataFrame} {c : String} {f : List Cell → Cell}
    (h : df.wf) : (setColWith df c f).wf := by
  unfold setColWith
  cases hci : colIdx df.cols c with
  | some i =>
    intro r hr
    simp only [List.mem_map] at hr
    obtain ⟨r0, hr0, rfl⟩ := hr
    simp [h r0 hr0]
  | none =>
    intro r hr
    simp only [List.mem_map] at hr
    obtain ⟨r0, hr0, rfl⟩ := hr
    simp [h r0 hr0]

theorem setColWith_cols {df : DataFrame} {c : String} {f : List Cell → Cell} :
    (setColWith df c f).cols = df.cols ∨ (setColWith df c f).cols = df.cols ++ [c] := by
  unfold setColWith
  cases colIdx df.cols c with
  | some i => left; rfl
  | none => right; rfl

theorem mem_setColWith_cols {df : DataFrame} {c c' : String} {f : List Cell → Cell}
    (h : c' ∈ df.cols) : c' ∈ (setColWith df c f).cols := by
  rcases @setColWith_cols df c f with hc | hc <;> rw [hc] <;> simp [h]

theorem getCol_setColWith_self (df : DataFrame) (c : String) (f : List Cell → Cell)
    (hwf : df.wf) : getCol (setColWith df c f) c = df.rows.map f := by
  unfold getCol setColWith
  cases hci : colIdx df.cols c with
  | some i =>
    simp only [List.map_map]
    apply List.map_congr_left
    intro r hr
    simp only [Function.comp]
    unfold getCell
    rw [hci]
    exact getD_set_self _ _ _ _ (by rw [hwf r hr]; exact colIdx_lt_length hci)
  | none =>
    simp only [List.map_map]
    apply List.map_congr_left
    intro r hr
    simp only [Function.comp]
    unfold getCell
    rw [colIdx_append_self (colIdx_eq_none_iff.mp hci)]
    rw [← hwf r hr]
    exact getD_append_len _ _ _

theorem getCol_setColWith_ne (df : DataFrame) (c c' : String) (f : List Cell → Cell)
    (hwf : df.wf) (hne : c' ≠ c) : getCol (setColWith df c f) c' = getCol df c' := by
  unfold getCol setColWith
  cases hci : colIdx df.cols c with
  | some i =>
    simp only [List.map_map]
    apply List.map_congr_left
    intro r hr
    simp only [Function.comp]
    unfold getCell
    cases hci' : colIdx df.cols c' with
    | none => rfl
    | some j =>
      have hij : i ≠ j := by
        intro he
        apply hne
        rw [← colIdx_get hci', ← colIdx_get hci, he]
      exact getD_set_ne _ hij _ _
  | none =>
    simp only [List.map_map]
    apply List.map_congr_left
    intro r hr
    simp only [Function.comp]
    unfold getCell
    cases hci' : colIdx df.cols c' with
    | none =>
      rw [colIdx_append_none (colIdx_eq_none_iff.mp hci') (by simp [hne])]
    | some j =>
      rw [colIdx_append_of_some hci']
      have : j < r.length := by rw [hwf r hr]; exact colIdx_lt_length hci'
      exact List.getD_append _ _ _ _ this


/-! ## splitChar lemmas -/

theorem splitChar_ne_nil (sep : Char) (l : List Char) : splitChar sep l ≠ [] := by
  cases l with
  | nil => simp [splitChar]
  | cons c rest =>
    unfold splitChar
    cases h : splitChar sep rest with
    | nil => simp
    | cons p ps => by_cases hc : c = sep <;> simp [hc]

theorem headD_splitChar (sep : Char) (l : List Char) :
    (splitChar sep l).headD [] = l.takeWhile (fun c => c != sep) := by
  induction l with
  | nil => rfl
  | cons c rest ih =>
    unfold splitChar
    cases h : splitChar sep rest with
    | nil => exact absurd h (splitChar_ne_nil sep rest)
    | cons p ps =>
      rw [h] at ih
      simp only [List.headD_cons] at ih
      by_cases hc : c = sep
      · simp [hc, List.takeWhile_cons]
      · simp [hc, List.takeWhile_cons, ih]

/-! ## Claim C7: GBE consistency check classification -/

/-- C7: for every row, the GBE check returns "Missing Data" when the
brand-name or group-entity field is null, otherwise "Correct GBE" exactly
when the group entity starts with the brand name's substring before the
first open parenthesis, stripped; with the two examples from the spec. -/
theorem check_gbe_match_c7 :
    (∀ g : Cell, check_gbe_match none g = "Missing Data") ∧
    (∀ b : Cell, check_gbe_match b none = "Missing Data") ∧
    (∀ b g : String, check_gbe_match (some b) (some g) =
      if (pyStrip (b.data.takeWhile (fun ch => ch != '('))).isPrefixOf g.data
      then "Correct GBE" else "Incorrect GBE") ∧
    check_gbe_match (some "Acme (X)") (some "Acme Europe") = "Correct GBE" ∧
    check_gbe_match (some "Acme (X)") (some "Other") = "Incorrect GBE" := by
  refine ⟨?_, ?_, ?_, by decide, by decide⟩
  · intro g; cases g <;> rfl
  · intro b; cases b <;> rfl
  · intro b g
    simp only [check_gbe_match]
    rw [headD_splitChar]

/-! ## Claim C10: brand names beginning with a parenthesis -/

/-- C10: when both fields are non-null and the brand name begins with
'(', the cleaned brand substring is empty, the empty string is a prefix
of every string, so the check returns "Correct GBE" regardless of the
group entity. -/
theorem check_gbe_match_c10 (b g : String) (h : b.data.head? = some '(') :
    check_gbe_match (some b) (some g) = "Correct GBE" := by
  simp only [check_gbe_match]
  rw [headD_splitChar]
  cases hb : b.data with
  | nil => rw [hb] at h; simp at h
  | cons c t =>
    rw [hb] at h
    simp only [List.head?_cons, Option.some.injEq] at h
    subst h
    simp [List.takeWhile_cons, pyStrip, List.isPrefixOf]

theorem check_gbe_match_c10_witness :
    check_gbe_match (some "(Acme") (some "ZZZ") = "Correct GBE" :=
  check_gbe_match_c10 "(Acme" "ZZZ" rfl

/-! ## Claim C3: the cleaned brand name -/

/-- C3 counterexample: a null brand-name value does NOT propagate as a
null cleaned name; `.astype(str)` turns the failed extract into the
literal string "nan". -/
theorem clean_null_c3_cex :
    clean_and_merge_supergroup ⟨["BRAND1_VALIDATED"], [[none]]⟩ =
      Except.ok ⟨["BRAND1_VALIDATED", "BRAND_1_CLEAN"], [[none, some "nan"]]⟩ := rfl

/-- C3 amended: the cleaned brand column holds, for every row, the string
obtained by extract-then-astype-then-trailing-space-strip; a non-null
brand name with a nonempty leading run before the first `[`/`(` yields
that run (trailing spaces stripped), while a null brand name yields the
non-null string "nan". -/
theorem clean_brand_c3_amended (df out : DataFrame) (hwf : df.wf)
    (hok : clean_and_merge_supergroup df = Except.ok out) :
    getCol out "BRAND_1_CLEAN" = (getCol df "BRAND1_VALIDATED").map
      (fun c => some (pyReplaceTrailingSpaces (extractAstype c))) ∧
    extractAstype none = "nan" ∧
    (∀ s : String, ∀ c t, s.data.takeWhile (fun ch => !(ch = '[' || ch = '(')) = c :: t →
      extractAstype (some s) = ⟨c :: t⟩) := by
  refine ⟨?_, rfl, ?_⟩
  · by_cases hb : "BRAND1_VALIDATED" ∈ df.cols
    · simp only [clean_and_merge_supergroup, if_pos hb] at hok
      have hwf1 : (setColWith df "BRAND_1_CLEAN"
          (fun r => some (extractAstype (getCell df.cols r "BRAND1_VALIDATED")))).wf :=
        setColWith_wf hwf
      have hwf2 : (setColWith (setColWith df "BRAND_1_CLEAN"
          (fun r => some (extractAstype (getCell df.cols r "BRAND1_VALIDATED")))) "BRAND_1_CLEAN"
          (fun r => (getCell (setColWith df "BRAND_1_CLEAN"
            (fun r => some (extractAstype (getCell df.cols r "BRAND1_VALIDATED")))).cols r
            "BRAND_1_CLEAN").map pyReplaceTrailingSpaces)).wf :=
        setColWith_wf hwf1
      have key : getCol (setColWith (setColWith df "BRAND_1_CLEAN"
          (fun r => some (extractAstype (getCell df.cols r "BRAND1_VALIDATED")))) "BRAND_1_CLEAN"
          (fun r => (getCell (setColWith df "BRAND_1_CLEAN"
            (fun r => some (extractAstype (getCell df.cols r "BRAND1_VALIDATED")))).cols r
            "BRAND_1_CLEAN").map pyReplaceTrailingSpaces)) "BRAND_1_CLEAN" =
          (getCol df "BRAND1_VALIDATED").map
            (fun c => some (pyReplaceTrailingSpaces (extractAstype c))) := by
        rw [getCol_setColWith_self _ _ _ hwf1]
        have h1 : (setColWith df "BRAND_1_CLEAN"
            (fun r => some (extractAstype (getCell df.cols r "BRAND1_VALIDATED")))).rows.map
            (fun r => (getCell (setColWith df "BRAND_1_CLEAN"
              (fun r => some (extractAstype (getCell df.cols r "BRAND1_VALIDATED")))).cols r
              "BRAND_1_CLEAN").map pyReplaceTrailingSpaces) =
            (getCol (setColWith df "BRAND_1_CLEAN"
              (fun r => some (extractAstype (getCell df.cols r "BRAND1_VALIDATED"))))
              "BRAND_1_CLEAN").map (Option.map pyReplaceTrailingSpaces) := by
          rw [getCol, List.map_map]
          rfl
        rw [h1, getCol_setColWith_self _ _ _ hwf]
        rw [getCol, List.map_map, List.map_map]
        rfl
      split at hok
      · simp only [Except.ok.injEq] at hok
        subst hok
        rw [getCol_setColWith_ne _ _ _ _ hwf2 (by decide)]
        exact key
      · split at hok
        · simp only [Except.ok.injEq] at hok
          subst hok
          rw [getCol_setColWith_ne _ _ _ _ hwf2 (by decide)]
          exact key
        · simp only [Except.ok.injEq] at hok
          subst hok
          exact key
    · simp [clean_and_merge_supergroup, hb] at hok
  · intro s c t h
    simp only [extractAstype]
    rw [h]

theorem clean_brand_c3_witness :
    getCol ⟨["BRAND1_VALIDATED", "BRAND_1_CLEAN"],
        [[some "Acme (G)", some "Acme"], [none, some "nan"]]⟩ "BRAND_1_CLEAN" =
      (getCol ⟨["BRAND1_VALIDATED"], [[some "Acme (G)"], [none]]⟩ "BRAND1_VALIDATED").map
        (fun c => some (pyReplaceTrailingSpaces (extractAstype c))) :=
  (clean_brand_c3_amended ⟨["BRAND1_VALIDATED"], [[some "Acme (G)"], [none]]⟩
    ⟨["BRAND1_VALIDATED", "BRAND_1_CLEAN"],
      [[some "Acme (G)", some "Acme"], [none, some "nan"]]⟩ (by decide) rfl).1

/-! ## Claim C6: null join keys in the Ownership Suggester -/

/-- C6 counterexample: a reference table with a null Join Key row does
not produce a suggestion entry keyed by null — the groupby drops the
row, and the output holds only the non-null-keyed entry. -/
theorem generate_boi_c6_cex :
    generate_boi_suggest
        ⟨["SG_B1", "BRAND_OWNER_INTERNATIONAL"], [[none, some "X"], [some "K", some "Y"]]⟩ =
      Except.ok ⟨["SG_B1", "BOI_SUGGEST"], [[some "K", some "Y"]]⟩ := rfl

/-- C6 amended: pandas groupby drops rows whose Join Key (or owner) is
null, so every row of the Suggestion Table is keyed by a non-null value;
there is never an entry keyed by null. -/
theorem generate_boi_no_null_key (df out : DataFrame)
    (hok : generate_boi_suggest df = Except.ok out) :
    ∀ row ∈ out.rows, ∃ k o : String, row = [some k, some o] := by
  simp only [generate_boi_suggest] at hok
  split at hok
  · simp only [Except.ok.injEq] at hok
    subst hok
    intro row hrow
    simp only [List.mem_map] at hrow
    obtain ⟨e, he, rfl⟩ := hrow
    exact ⟨e.1.1, e.1.2, rfl⟩
  · cases hok

theorem generate_boi_no_null_key_witness :
    ∃ k o : String, [some "K", some "Y"] = [(some k : Cell), some o] :=
  generate_boi_no_null_key
    ⟨["SG_B1", "BRAND_OWNER_INTERNATIONAL"], [[none, some "X"], [some "K", some "Y"]]⟩
    ⟨["SG_B1", "BOI_SUGGEST"], [[some "K", some "Y"]]⟩ rfl [some "K", some "Y"] (by decide)

/-! ## Claim C1: the end-to-end example -/

/-- C1 counterexample: on exactly the spec's end-to-end input the
pipeline does not complete (no output row at all). -/
theorem process_pipeline_c1_cex :
    (process_pipeline ⟨["SUPER_GROUP", "BRAND_1"], [[some "EMEA", some "Acme"]]⟩
      ⟨["SUPER_GROUP", "BRAND_VALIDATED"], [[some "EMEA", some "O1;Acme;Acme Europe"]]⟩).isOk =
      false := rfl

/-- C1 amended: on the spec's end-to-end input the pipeline aborts with
a KeyError in the ownership-suggestion groupby, because the reference
table has no BRAND_OWNER_INTERNATIONAL column; and even when that column
is added (value "O1"), it aborts with a KeyError in the spacing-fix
step, because the EU table built via the BRAND_1 fallback path has no
BRAND_VALIDATED column.  No output row is produced. -/
theorem process_pipeline_c1_amended :
    process_pipeline ⟨["SUPER_GROUP", "BRAND_1"], [[some "EMEA", some "Acme"]]⟩
        ⟨["SUPER_GROUP", "BRAND_VALIDATED"], [[some "EMEA", some "O1;Acme;Acme Europe"]]⟩ =
      Except.error "KeyError: SG_B1 or BRAND_OWNER_INTERNATIONAL missing for groupby" ∧
    process_pipeline ⟨["SUPER_GROUP", "BRAND_1"], [[some "EMEA", some "Acme"]]⟩
        ⟨["SUPER_GROUP", "BRAND_VALIDATED", "BRAND_OWNER_INTERNATIONAL"],
          [[some "EMEA", some "O1;Acme;Acme Europe", some "O1"]]⟩ =
      Except.error "KeyError: BRAND_VALIDATED" := ⟨rfl, rfl⟩

/-! ## Claims C2 and C9: the Column Splitter -/

theorem foldl_max_init_le (g : Cell → Nat) :
    ∀ (l : List Cell) (a : Nat), a ≤ l.foldl (fun m c => max m (g c)) a := by
  intro l
  induction l with
  | nil => intro a; exact Nat.le_refl a
  | cons x t ih =>
    intro a
    calc a ≤ max a (g x) := Nat.le_max_left _ _
    _ ≤ t.foldl (fun m c => max m (g c)) (max a (g x)) := ih _

theorem le_foldl_max (g : Cell → Nat) :
    ∀ (l : List Cell) (a : Nat) (c : Cell), c ∈ l → g c ≤ l.foldl (fun m c => max m (g c)) a := by
  intro l
  induction l with
  | nil => intro a c h; cases h
  | cons x t ih =>
    intro a c h
    rcases List.mem_cons.mp h with rfl | h
    · calc g c ≤ max a (g c) := Nat.le_max_right _ _
      _ ≤ t.foldl (fun m c => max m (g c)) (max a (g c)) := foldl_max_init_le g t _
    · exact ih _ c h

/-- C2 counterexample: a BRAND_VALIDATED value with four tokens is not
silently truncated to three — the column-name assignment fails and the
whole step errors out. -/
theorem split_brand_c2_cex :
    split_brand_columns ⟨["BRAND_VALIDATED"], [[some "A;B;C;D"]]⟩ =
      Except.error "ValueError: Length mismatch assigning brand_split.columns" := rfl

/-- C2 amended: the expanded split has one column per token up to the
maximum token count, and the step only succeeds when that maximum is
exactly three (so no value ever has its extra tokens discarded: any
value with more than three tokens makes the step fail).  When it
succeeds, every row gains the three positional parts, short values
padded with null, and "A;B;C" yields exactly ("A","B","C"). -/
theorem split_brand_c2_amended (df out : DataFrame)
    (hbv : "BRAND_VALIDATED" ∈ df.cols)
    (hok : split_brand_columns df = Except.ok out) :
    bvWidth (getCol df "BRAND_VALIDATED") = 3 ∧
    (∀ s : String, some s ∈ getCol df "BRAND_VALIDATED" → (brandTokens s).length ≤ 3) ∧
    out.rows = df.rows.map (fun r => r ++ splitRow3 (getCell df.cols r "BRAND_VALIDATED")) ∧
    splitRow3 (some "A;B;C") = [some "A", some "B", some "C"] ∧
    splitRow3 (some "A;B") = [some "A", some "B", none] ∧
    splitRow3 none = [none, none, none] := by
  simp only [split_brand_columns, if_pos hbv] at hok
  split at hok
  case isTrue h3 =>
    simp only [Except.ok.injEq] at hok
    subst hok
    refine ⟨h3, ?_, rfl, by decide, by decide, by decide⟩
    intro s hs
    have h := le_foldl_max (fun c => match c with | none => 1 | some s => (brandTokens s).length)
      (getCol df "BRAND_VALIDATED") 0 (some s) hs
    rw [show ((getCol df "BRAND_VALIDATED").foldl
        (fun m c => max m (match c with | none => 1 | some s => (brandTokens s).length)) 0) =
        bvWidth (getCol df "BRAND_VALIDATED") from rfl, h3] at h
    exact h
  case isFalse => cases hok

theorem split_brand_c2_witness :
    bvWidth (getCol ⟨["BRAND_VALIDATED"], [[some "A;B;C"], [some "A;B"], [none]]⟩
      "BRAND_VALIDATED") = 3 ∧
    (brandTokens "A;B").length ≤ 3 :=
  ⟨(split_brand_c2_amended ⟨["BRAND_VALIDATED"], [[some "A;B;C"], [some "A;B"], [none]]⟩
      ⟨["BRAND_VALIDATED", "BOI_VALIDATED", "BRAND1_VALIDATED", "GBE_VALIDATED"],
        [[some "A;B;C", some "A", some "B", some "C"],
         [some "A;B", some "A", some "B", none],
         [none, none, none, none]]⟩ (by decide) rfl).1,
   (split_brand_c2_amended ⟨["BRAND_VALIDATED"], [[some "A;B;C"], [some "A;B"], [none]]⟩
      ⟨["BRAND_VALIDATED", "BOI_VALIDATED", "BRAND1_VALIDATED", "GBE_VALIDATED"],
        [[some "A;B;C", some "A", some "B", some "C"],
         [some "A;B", some "A", some "B", none],
         [none, none, none, none]]⟩ (by decide) rfl).2.1 "A;B" (by decide)⟩

/-- C9 counterexample: the Column Splitter can also fail when
BRAND_VALIDATED IS present — here a single one-token value makes the
three-name column assignment fail — so "errors iff neither column is
present" is false. -/
theorem split_brand_c9_cex :
    "BRAND_VALIDATED" ∈ (DataFrame.mk ["BRAND_VALIDATED"] [[some "A"]]).cols ∧
    (split_brand_columns ⟨["BRAND_VALIDATED"], [[some "A"]]⟩).isOk = false :=
  ⟨by decide, rfl⟩

/-- C9 amended: the step fails exactly when either (a) neither
BRAND_VALIDATED nor BRAND_1 is present (KeyError) or (b) BRAND_VALIDATED
is present but the expanded split width differs from three (ValueError);
when only BRAND_1 is present the step succeeds and copies that column
verbatim into BRAND1_VALIDATED. -/
theorem split_brand_c9_amended (df : DataFrame) (hwf : df.wf) :
    ((split_brand_columns df).isOk = false ↔
      ("BRAND_VALIDATED" ∉ df.cols ∧ "BRAND_1" ∉ df.cols) ∨
      ("BRAND_VALIDATED" ∈ df.cols ∧ bvWidth (getCol df "BRAND_VALIDATED") ≠ 3)) ∧
    ("BRAND_VALIDATED" ∉ df.cols → "BRAND_1" ∈ df.cols →
      ∀ out, split_brand_columns df = Except.ok out →
        getCol out "BRAND1_VALIDATED" = getCol df "BRAND_1") := by
  constructor
  · simp only [split_brand_columns]
    by_cases h1 : "BRAND_VALIDATED" ∈ df.cols
    · rw [if_pos h1]
      by_cases h2 : bvWidth (getCol df "BRAND_VALIDATED") = 3
      · rw [if_pos h2]; simp [Except.isOk, Except.toBool, h1, h2]
      · rw [if_neg h2]; simp [Except.isOk, Except.toBool, h1, h2]
    · rw [if_neg h1]
      by_cases h3 : "BRAND_1" ∈ df.cols
      · rw [if_pos h3]; simp [Except.isOk, Except.toBool, h1, h3]
      · rw [if_neg h3]; simp [Except.isOk, Except.toBool, h1, h3]
  · intro h1 h3 out hok
    simp only [split_brand_columns, if_neg h1, if_pos h3] at hok
    simp only [Except.ok.injEq] at hok
    subst hok
    rw [getCol_setColWith_self _ _ _ hwf]
    rfl

theorem split_brand_c9_witness :
    getCol ⟨["BRAND_1", "BRAND1_VALIDATED"], [[some "X", some "X"]]⟩ "BRAND1_VALIDATED" =
      getCol ⟨["BRAND_1"], [[some "X"]]⟩ "BRAND_1" :=
  (split_brand_c9_amended ⟨["BRAND_1"], [[some "X"]]⟩ (by decide)).2 (by decide) (by decide)
    ⟨["BRAND_1", "BRAND1_VALIDATED"], [[some "X", some "X"]]⟩ rfl

/-! ## Claim C8: the Spacing Fix -/

theorem head?_subSpacePass : ∀ l : List Char, (subSpacePass l).head? = l.head? := by
  intro l
  cases l with
  | nil => rfl
  | cons c1 t =>
    cases t with
    | nil => rfl
    | cons c2 rest =>
      unfold subSpacePass
      split <;> rfl

theorem noAdjParens_tail {a : Char} {l : List Char} (h : noAdjParens (a :: l) = true) :
    noAdjParens l = true := by
  cases l with
  | nil => rfl
  | cons b t =>
    simp only [noAdjParens, Bool.and_eq_true] at h
    exact h.2

theorem noAdjParens_head {a : Char} {l : List Char} (h : noAdjParens (a :: l) = true) :
    ∀ y ∈ l.head?, ¬(a = '(' ∧ y = '(') := by
  cases l with
  | nil => simp
  | cons b t =>
    intro y hy
    simp only [List.head?_cons, Option.mem_def, Option.some.injEq] at hy
    subst hy
    simp only [noAdjParens, Bool.and_eq_true, Bool.not_eq_true', Bool.and_eq_false_iff] at h
    intro ⟨h1, h2⟩
    rcases h.1 with hc | hc <;> simp [h1, h2] at hc

theorem parensSpaced_cons (a : Char) (l : List Char) :
    parensSpaced (a :: l) =
      ((match l.head? with
        | some b => if b = '(' then isPySpace a else true
        | none => true) && parensSpaced l) := by
  cases l with
  | nil => rfl
  | cons b t => rfl

theorem subSpacePass_id : ∀ (l : List Char), parensSpaced l = true → subSpacePass l = l := by
  intro l
  induction l using subSpacePass.induct with
  | case1 => intro _; rfl
  | case2 c => intro _; rfl
  | case3 c1 c2 rest hmatch ih =>
    intro h
    simp only [Bool.and_eq_true, Bool.not_eq_true', decide_eq_true_eq] at hmatch
    obtain ⟨hsp, hc2⟩ := hmatch
    subst hc2
    simp [parensSpaced, hsp] at h
  | case4 c1 c2 rest hmatch ih =>
    intro h
    unfold subSpacePass
    rw [if_neg hmatch]
    have ht : parensSpaced (c2 :: rest) = true := by
      simp only [parensSpaced, Bool.and_eq_true] at h
      exact h.2
    rw [ih ht]

theorem parensSpaced_subSpacePass : ∀ (l : List Char), noAdjParens l = true →
    parensSpaced (subSpacePass l) = true := by
  intro l
  induction l using subSpacePass.induct with
  | case1 => intro _; rfl
  | case2 c => intro _; rfl
  | case3 c1 c2 rest hmatch ih =>
    intro h
    simp only [Bool.and_eq_true, Bool.not_eq_true', decide_eq_true_eq] at hmatch
    obtain ⟨hsp, hc2⟩ := hmatch
    subst hc2
    unfold subSpacePass
    rw [if_pos (by simp [hsp])]
    rw [parensSpaced_cons, parensSpaced_cons, parensSpaced_cons]
    have h1 : noAdjParens ('(' :: rest) = true := noAdjParens_tail h
    have h2 : noAdjParens rest = true := noAdjParens_tail h1
    have hrec := ih h2
    rw [head?_subSpacePass]
    cases hrest : rest.head? with
    | none => simp [hrec, isPySpace]
    | some y =>
      have hy : ¬('(' = '(' ∧ y = '(') := noAdjParens_head h1 y (by simp [hrest])
      have hyne : y ≠ '(' := fun he => hy ⟨rfl, he⟩
      simp [hrec, hyne, isPySpace]
  | case4 c1 c2 rest hmatch ih =>
    intro h
    unfold subSpacePass
    rw [if_neg hmatch]
    rw [parensSpaced_cons, head?_subSpacePass]
    have hrec := ih (noAdjParens_tail h)
    simp only [List.head?_cons, hrec, Bool.and_true]
    by_cases hc2 : c2 = '('
    · subst hc2
      simp only [if_pos rfl]
      by_cases hs : isPySpace c1
      · simp [hs]
      · exfalso
        apply hmatch
        simp [hs]
    · simp [hc2]

theorem subSpacePass_idem (l : List Char) (h : noAdjParens l = true) :
    subSpacePass (subSpacePass l) = subSpacePass l :=
  subSpacePass_id _ (parensSpaced_subSpacePass l h)

theorem mem_subSpacePass : ∀ (l : List Char) (c : Char), c ∈ subSpacePass l → c ∈ l ∨ c = ' ' := by
  intro l
  induction l using subSpacePass.induct with
  | case1 => intro c hc; cases hc
  | case2 c0 => intro c hc; exact Or.inl hc
  | case3 c1 c2 rest hmatch ih =>
    intro c hc
    unfold subSpacePass at hc
    rw [if_pos hmatch] at hc
    simp only [Bool.and_eq_true, decide_eq_true_eq] at hmatch
    rcases List.mem_cons.mp hc with rfl | hc
    · exact Or.inl (by simp)
    rcases List.mem_cons.mp hc with rfl | hc
    · exact Or.inr rfl
    rcases List.mem_cons.mp hc with rfl | hc
    · exact Or.inl (by simp [hmatch.2])
    · rcases ih c hc with h | h
      · exact Or.inl (by simp [h])
      · exact Or.inr h
  | case4 c1 c2 rest hmatch ih =>
    intro c hc
    unfold subSpacePass at hc
    rw [if_neg hmatch] at hc
    rcases List.mem_cons.mp hc with rfl | hc
    · exact Or.inl (by simp)
    · rcases ih c hc with h | h
      · exact Or.inl (by simp at h ⊢; tauto)
      · exact Or.inr h

theorem splitChar_no_sep (sep : Char) : ∀ (p : List Char), sep ∉ p → splitChar sep p = [p] := by
  intro p
  induction p with
  | nil => intro _; rfl
  | cons c t ih =>
    intro h
    have hc : c ≠ sep := fun he => h (by simp [he])
    have ht : sep ∉ t := fun hm => h (by simp [hm])
    unfold splitChar
    rw [ih ht]
    simp [hc]

theorem splitChar_cons_eq (sep c : Char) (rest p0 : List Char) (ps : List (List Char))
    (h : splitChar sep rest = p0 :: ps) :
    splitChar sep (c :: rest) = if c = sep then [] :: p0 :: ps else (c :: p0) :: ps := by
  unfold splitChar
  rw [h]

theorem mem_splitChar_not_sep (sep : Char) : ∀ (l : List Char) (p : List Char),
    p ∈ splitChar sep l → sep ∉ p := by
  intro l
  induction l with
  | nil =>
    intro p hp
    simp only [splitChar, List.mem_singleton] at hp
    subst hp
    simp
  | cons c rest ih =>
    intro p hp
    cases hrec : splitChar sep rest with
    | nil => exact absurd hrec (splitChar_ne_nil sep rest)
    | cons p0 ps =>
      rw [splitChar_cons_eq sep c rest p0 ps hrec] at hp
      by_cases hc : c = sep
      · rw [if_pos hc] at hp
        rcases List.mem_cons.mp hp with rfl | hp
        · simp
        · exact ih p (by rw [hrec]; exact hp)
      · rw [if_neg hc] at hp
        rcases List.mem_cons.mp hp with rfl | hp
        · intro hm
          rcases List.mem_cons.mp hm with he | hm
          · exact hc he.symm
          · exact ih p0 (by rw [hrec]; exact List.mem_cons_self p0 ps) hm
        · exact ih p (by rw [hrec]; exact List.mem_cons_of_mem p0 hp)

theorem splitChar_append_sep (sep : Char) : ∀ (p rest : List Char), sep ∉ p →
    splitChar sep (p ++ sep :: rest) = p :: splitChar sep rest := by
  intro p
  induction p with
  | nil =>
    intro rest _
    simp only [List.nil_append]
    cases hrec : splitChar sep rest with
    | nil => exact absurd hrec (splitChar_ne_nil sep rest)
    | cons p0 ps =>
      rw [splitChar_cons_eq sep sep rest p0 ps hrec, if_pos rfl]
  | cons c t ih =>
    intro rest h
    have hc : c ≠ sep := fun he => h (by simp [he])
    have ht : sep ∉ t := fun hm => h (by simp [hm])
    simp only [List.cons_append]
    cases hrec : splitChar sep (t ++ sep :: rest) with
    | nil => exact absurd hrec (splitChar_ne_nil sep _)
    | cons p0 ps =>
      rw [splitChar_cons_eq sep c _ p0 ps hrec]
      rw [ih rest ht] at hrec
      cases hrec
      simp [hc]

theorem splitChar_joinChar (sep : Char) : ∀ (parts : List (List Char)), parts ≠ [] →
    (∀ p ∈ parts, sep ∉ p) → splitChar sep (joinChar sep parts) = parts := by
  intro parts
  induction parts with
  | nil => intro h _; exact absurd rfl h
  | cons p ps ih =>
    intro _ hall
    cases ps with
    | nil =>
      show splitChar sep p = [p]
      exact splitChar_no_sep sep p (hall p (by simp))
    | cons p2 rest =>
      show splitChar sep (p ++ sep :: joinChar sep (p2 :: rest)) = p :: p2 :: rest
      rw [splitChar_append_sep sep p _ (hall p (by simp))]
      rw [ih (by simp) (fun q hq => hall q (by simp [hq]))]

theorem fixCore_idem (l : List Char)
    (h : ∀ t ∈ splitChar ';' l, noAdjParens t = true) :
    joinChar ';' ((splitChar ';' (joinChar ';' ((splitChar ';' l).map subSpacePass))).map
      subSpacePass) = joinChar ';' ((splitChar ';' l).map subSpacePass) := by
  have hsplit : splitChar ';' (joinChar ';' ((splitChar ';' l).map subSpacePass)) =
      (splitChar ';' l).map subSpacePass := by
    apply splitChar_joinChar
    · simp [splitChar_ne_nil]
    · intro p hp
      simp only [List.mem_map] at hp
      obtain ⟨t, ht, rfl⟩ := hp
      intro hmem
      rcases mem_subSpacePass t ';' hmem with hm | hm
      · exact mem_splitChar_not_sep ';' l t ht hm
      · cases hm
  rw [hsplit, List.map_map]
  congr 1
  apply List.map_congr_left
  intro t ht
  exact subSpacePass_idem t (h t ht)

/-- C8 counterexample: fix_spacing is not idempotent — on "(((" the
non-overlapping regex scan leaves an unspaced parenthesis that a second
application then spaces. -/
theorem fix_spacing_c8_cex :
    fix_spacing (fix_spacing (some "(((")) ≠ fix_spacing (some "(((") := by decide

/-- C8 amended: fix_spacing leaves null unchanged, maps "Brand(Group)"
to "Brand (Group)" and leaves "Brand (Group)" unchanged; it is
idempotent on every value without two consecutive open parentheses in a
token, but not idempotent in general, because the left-to-right
non-overlapping scan can skip a parenthesis that follows a just-matched
one. -/
theorem fix_spacing_c8_amended :
    fix_spacing none = none ∧
    fix_spacing (some "Brand(Group)") = some "Brand (Group)" ∧
    fix_spacing (some "Brand (Group)") = some "Brand (Group)" ∧
    (∀ s : String, (∀ t ∈ splitChar ';' s.data, noAdjParens t = true) →
      fix_spacing (fix_spacing (some s)) = fix_spacing (some s)) := by
  refine ⟨rfl, by decide, by decide, ?_⟩
  intro s h
  simp only [fix_spacing]
  exact congrArg (fun x => some (String.mk x)) (fixCore_idem s.data h)

theorem fix_spacing_c8_witness :
    fix_spacing (fix_spacing (some "a(b;c(d (e")) = fix_spacing (some "a(b;c(d (e") :=
  fix_spacing_c8_amended.2.2.2 "a(b;c(d (e" (by decide)

/-! ## Claim C4: Ownership Suggester majority vote with lexicographic tie-break -/

theorem mem_insSorted {α : Type} (r : α → α → Prop) [DecidableRel r] (a x : α) :
    ∀ l : List α, x ∈ insSorted r a l ↔ x = a ∨ x ∈ l := by
  intro l
  induction l with
  | nil => simp [insSorted]
  | cons b t ih =>
    unfold insSorted
    by_cases h : r a b
    · rw [if_pos h]
      simp [List.mem_cons]
    · rw [if_neg h]
      simp [List.mem_cons, ih]
      tauto

theorem insSorted_perm {α : Type} (r : α → α → Prop) [DecidableRel r] (a : α) :
    ∀ l : List α, List.Perm (insSorted r a l) (a :: l) := by
  intro l
  induction l with
  | nil => simp [insSorted]
  | cons b t ih =>
    unfold insSorted
    by_cases h : r a b
    · rw [if_pos h]
    · rw [if_neg h]
      exact (List.Perm.cons b ih).trans (List.Perm.swap a b t)

theorem foldl_ins_perm {α : Type} (r : α → α → Prop) [DecidableRel r] :
    ∀ (l acc : List α),
      List.Perm (l.foldl (fun acc x => insSorted r x acc) acc) (l ++ acc) := by
  intro l
  induction l with
  | nil => intro acc; simp
  | cons x t ih =>
    intro acc
    have h1 := ih (insSorted r x acc)
    have h2 : List.Perm (t ++ insSorted r x acc) (t ++ (x :: acc)) :=
      List.Perm.append_left t (insSorted_perm r x acc)
    exact (h1.trans h2).trans List.perm_middle

theorem sortIns_perm {α : Type} (r : α → α → Prop) [DecidableRel r] (l : List α) :
    List.Perm (sortIns r l) l := by
  have := foldl_ins_perm r l []
  simpa [sortIns] using this

theorem insSorted_sorted {α : Type} (r : α → α → Prop) [DecidableRel r]
    (htrans : ∀ {a b c : α}, r a b → r b c → r a c)
    (hasym : ∀ {a b : α}, r a b → ¬ r b a) (a : α) :
    ∀ l : List α, l.Pairwise (fun x y => ¬ r y x) →
      (insSorted r a l).Pairwise (fun x y => ¬ r y x) := by
  intro l
  induction l with
  | nil => intro _; simp [insSorted]
  | cons b t ih =>
    intro hl
    rw [List.pairwise_cons] at hl
    obtain ⟨hb, ht⟩ := hl
    unfold insSorted
    by_cases h : r a b
    · rw [if_pos h]
      rw [List.pairwise_cons]
      constructor
      · intro y hy
        rcases List.mem_cons.mp hy with rfl | hy
        · exact hasym h
        · intro hya
          exact hb y hy (htrans hya h)
      · exact List.pairwise_cons.mpr ⟨hb, ht⟩
    · rw [if_neg h]
      rw [List.pairwise_cons]
      refine ⟨?_, ih ht⟩
      intro y hy
      rcases (mem_insSorted r a y t).mp hy with rfl | hy
      · exact h
      · exact hb y hy

theorem sortIns_sorted {α : Type} (r : α → α → Prop) [DecidableRel r]
    (htrans : ∀ {a b c : α}, r a b → r b c → r a c)
    (hasym : ∀ {a b : α}, r a b → ¬ r b a) :
    ∀ (l acc : List α), acc.Pairwise (fun x y => ¬ r y x) →
      (l.foldl (fun acc x => insSorted r x acc) acc).Pairwise (fun x y => ¬ r y x) := by
  intro l
  induction l with
  | nil => intro acc h; exact h
  | cons x t ih =>
    intro acc h
    exact ih _ (insSorted_sorted r htrans hasym x acc h)

theorem lexLt_irrefl : ∀ l : List Char, lexLt l l = false := by
  intro l
  induction l with
  | nil => rfl
  | cons a t ih => simp [lexLt, ih]

theorem lexLt_trans : ∀ (a b c : List Char),
    lexLt a b = true → lexLt b c = true → lexLt a c = true := by
  intro a
  induction a with
  | nil =>
    intro b c hab hbc
    cases b with
    | nil => cases hab
    | cons y tb =>
      cases c with
      | nil => cases hbc
      | cons z tc => rfl
  | cons x s ih =>
    intro b c hab hbc
    cases b with
    | nil => cases hab
    | cons y tb =>
      cases c with
      | nil => cases hbc
      | cons z tc =>
        simp only [lexLt] at hab hbc ⊢
        split_ifs at hab hbc ⊢ <;>
          first
          | rfl
          | omega
          | exact ih tb tc hab hbc

theorem lexLt_asymm : ∀ (a b : List Char), lexLt a b = true → lexLt b a = false := by
  intro a
  induction a with
  | nil =>
    intro b hab
    cases b with
    | nil => cases hab
    | cons y tb => rfl
  | cons x s ih =>
    intro b hab
    cases b with
    | nil => cases hab
    | cons y tb =>
      simp only [lexLt] at hab ⊢
      split_ifs at hab ⊢ <;>
        first
        | rfl
        | omega
        | exact ih tb hab

theorem lexLt_total : ∀ (a b : List Char),
    lexLt a b = false → lexLt b a = false → a = b := by
  intro a
  induction a with
  | nil =>
    intro b hab _
    cases b with
    | nil => rfl
    | cons y tb => cases hab
  | cons x s ih =>
    intro b hab hba
    cases b with
    | nil => cases hba
    | cons y tb =>
      simp only [lexLt] at hab hba
      split_ifs at hab hba <;>
        first
        | cases hab
        | cases hba
        | (have hx : x = y := by
             apply Char.eq_of_val_eq
             apply UInt32.ext
             show x.toNat = y.toNat
             omega
           rw [hx, ih tb hab hba])

theorem pyStrLt_trans {a b c : String} (h1 : pyStrLt a b) (h2 : pyStrLt b c) :
    pyStrLt a c :=
  lexLt_trans a.data b.data c.data h1 h2

theorem pyStrLt_asymm {a b : String} (h : pyStrLt a b) : ¬ pyStrLt b a := by
  unfold pyStrLt at *
  rw [lexLt_asymm a.data b.data h]
  simp

theorem pyStrLt_irrefl (a : String) : ¬ pyStrLt a a := by
  unfold pyStrLt
  simp [lexLt_irrefl]

theorem pyStrLt_total {a b : String} (h1 : ¬ pyStrLt a b) (h2 : ¬ pyStrLt b a) : a = b := by
  unfold pyStrLt at h1 h2
  rw [Bool.not_eq_true] at h1 h2
  have hd := lexLt_total a.data b.data h1 h2
  cases a
  cases b
  exact congrArg String.mk hd

theorem pyStrLt_trichotomy (a b : String) : pyStrLt a b ∨ a = b ∨ pyStrLt b a := by
  by_cases h1 : pyStrLt a b
  · exact Or.inl h1
  by_cases h2 : pyStrLt b a
  · exact Or.inr (Or.inr h2)
  · exact Or.inr (Or.inl (pyStrLt_total h1 h2))

theorem lt2_trans {a b c : Entry} : lt2 a b → lt2 b c → lt2 a c := by
  unfold lt2
  rintro (h | ⟨he, hc⟩) (h' | ⟨he', hc'⟩)
  · left; exact pyStrLt_trans h h'
  · left; rw [← he']; exact h
  · left; rw [he]; exact h'
  · right; exact ⟨he.trans he', by omega⟩

theorem lt2_asymm {a b : Entry} : lt2 a b → ¬ lt2 b a := by
  unfold lt2
  rintro (h | ⟨he, hc⟩) (h' | ⟨he', hc'⟩)
  · exact pyStrLt_asymm h h'
  · rw [he'] at h; exact pyStrLt_irrefl _ h
  · rw [he] at h'; exact pyStrLt_irrefl _ h'
  · omega

theorem lt2_tie {b c : Entry} (h1 : ¬ lt2 b c) (h2 : ¬ lt2 c b) :
    b.1.1 = c.1.1 ∧ b.2 = c.2 := by
  unfold lt2 at h1 h2
  push_neg at h1 h2
  have hk : b.1.1 = c.1.1 := pyStrLt_total h1.1 h2.1
  refine ⟨hk, ?_⟩
  have ha := h1.2 hk
  have hb := h2.2 hk.symm
  omega

theorem lt2_congr_right {a b c : Entry} (h : lt2 a b) (hk : b.1.1 = c.1.1)
    (hc : b.2 = c.2) : lt2 a c := by
  unfold lt2 at *
  rcases h with h | ⟨he, hcc⟩
  · left; rw [← hk]; exact h
  · right; exact ⟨he.trans hk, by omega⟩

theorem lt2_of_lt2_tieQ {a b c : Entry} (hab : lt2 a b) (hbc : tieQ b c) : lt2 a c := by
  rcases hbc with h | ⟨h1, h2, h3⟩
  · exact lt2_trans hab h
  · obtain ⟨hk, hc⟩ := lt2_tie h1 h2
    exact lt2_congr_right hab hk hc

theorem ltPair_trans {p q s : BrandPair} : ltPair p q → ltPair q s → ltPair p s := by
  unfold ltPair
  rintro (h | ⟨he, hc⟩) (h' | ⟨he', hc'⟩)
  · left; exact pyStrLt_trans h h'
  · left; rw [← he']; exact h
  · left; rw [he]; exact h'
  · right; exact ⟨he.trans he', pyStrLt_trans hc hc'⟩

theorem ltPair_asymm {p q : BrandPair} : ltPair p q → ¬ ltPair q p := by
  unfold ltPair
  rintro (h | ⟨he, hc⟩) (h' | ⟨he', hc'⟩)
  · exact pyStrLt_asymm h h'
  · rw [he'] at h; exact pyStrLt_irrefl _ h
  · rw [he] at h'; exact pyStrLt_irrefl _ h'
  · exact pyStrLt_asymm hc hc'

theorem ltPair_total_ne {p q : BrandPair} (h : ¬ ltPair q p) (hne : p ≠ q) : ltPair p q := by
  unfold ltPair at *
  push_neg at h
  rcases pyStrLt_trichotomy p.1 q.1 with hlt | heq | hgt
  · left; exact hlt
  · right
    refine ⟨heq, ?_⟩
    have h2 := h.2 heq.symm
    rcases pyStrLt_trichotomy p.2 q.2 with h3 | h3 | h3
    · exact h3
    · exact absurd (Prod.ext heq h3) hne
    · exact absurd h3 h2
  · exact absurd hgt h.1

theorem insSorted_tieQ (a : Entry) :
    ∀ l : List Entry, l.Pairwise tieQ → (∀ b ∈ l, ltPair b.1 a.1) →
      (insSorted lt2 a l).Pairwise tieQ := by
  intro l
  induction l with
  | nil => intro _ _; simp [insSorted]
  | cons b t ih =>
    intro hl hall
    rw [List.pairwise_cons] at hl
    obtain ⟨hb, ht⟩ := hl
    unfold insSorted
    by_cases h : lt2 a b
    · rw [if_pos h]
      rw [List.pairwise_cons]
      refine ⟨?_, List.pairwise_cons.mpr ⟨hb, ht⟩⟩
      intro y hy
      rcases List.mem_cons.mp hy with rfl | hy
      · exact Or.inl h
      · exact Or.inl (lt2_of_lt2_tieQ h (hb y hy))
    · rw [if_neg h]
      rw [List.pairwise_cons]
      refine ⟨?_, ih ht (fun x hx => hall x (by simp [hx]))⟩
      intro y hy
      rcases (mem_insSorted lt2 a y t).mp hy with rfl | hy
      · by_cases h2 : lt2 b y
        · exact Or.inl h2
        · exact Or.inr ⟨h2, h, hall b (by simp)⟩
      · exact hb y hy

theorem foldl_ins_tieQ :
    ∀ (l acc : List Entry), acc.Pairwise tieQ →
      (∀ b ∈ acc, ∀ x ∈ l, ltPair b.1 x.1) →
      l.Pairwise (fun x y => ltPair x.1 y.1) →
      (l.foldl (fun acc x => insSorted lt2 x acc) acc).Pairwise tieQ := by
  intro l
  induction l with
  | nil => intro acc h _ _; exact h
  | cons x t ih =>
    intro acc hacc hcross hl
    rw [List.pairwise_cons] at hl
    obtain ⟨hx, ht⟩ := hl
    apply ih
    · exact insSorted_tieQ x acc hacc (fun b hb => hcross b hb x (by simp))
    · intro b hb y hy
      rcases (mem_insSorted lt2 x b acc).mp hb with rfl | hb
      · exact hx y hy
      · exact hcross b hb y (by simp [hy])
    · exact ht

theorem sortIns_lt2_tieQ (l : List Entry) (h : l.Pairwise (fun x y => ltPair x.1 y.1)) :
    (sortIns lt2 l).Pairwise tieQ :=
  foldl_ins_tieQ l [] List.Pairwise.nil (by simp) h

theorem sortIns_ltPair_sorted (l : List BrandPair) (hnd : l.Nodup) :
    (sortIns ltPair l).Pairwise ltPair := by
  have hs : (sortIns ltPair l).Pairwise (fun x y => ¬ ltPair y x) :=
    sortIns_sorted ltPair (fun h h' => ltPair_trans h h') (fun h => ltPair_asymm h) l []
      List.Pairwise.nil
  have hnd2 : (sortIns ltPair l).Nodup := (sortIns_perm ltPair l).symm.nodup hnd
  exact (List.Pairwise.and hs hnd2).imp (fun h => ltPair_total_ne h.1 h.2)

theorem groupCounts_sorted (df : DataFrame) :
    (groupCounts df).Pairwise (fun x y => ltPair x.1 y.1) := by
  unfold groupCounts
  rw [List.pairwise_map]
  exact sortIns_ltPair_sorted _ (validPairs df).nodup_dedup

theorem mem_groupCounts {df : DataFrame} {e : Entry} :
    e ∈ groupCounts df ↔ e.1 ∈ validPairs df ∧ e.2 = (validPairs df).count e.1 := by
  unfold groupCounts
  rw [List.mem_map]
  constructor
  · rintro ⟨p, hp, rfl⟩
    exact ⟨List.mem_dedup.mp ((sortIns_perm ltPair _).mem_iff.mp hp), rfl⟩
  · intro ⟨h1, h2⟩
    refine ⟨e.1, (sortIns_perm ltPair _).mem_iff.mpr (List.mem_dedup.mpr h1), ?_⟩
    exact Prod.ext rfl h2.symm

theorem mem_dropDupKeys : ∀ (l : List Entry) (seen : List String) (e : Entry),
    e ∈ dropDupKeys l seen →
    e.1.1 ∉ seen ∧ ∃ l1 l2, l = l1 ++ e :: l2 ∧ ∀ x ∈ l1, x.1.1 ∈ seen ∨ x.1.1 ≠ e.1.1 := by
  intro l
  induction l with
  | nil => intro seen e h; cases h
  | cons a t ih =>
    intro seen e h
    unfold dropDupKeys at h
    by_cases ha : a.1.1 ∈ seen
    · rw [if_pos ha] at h
      obtain ⟨hn, l1, l2, heq, hfst⟩ := ih seen e h
      refine ⟨hn, a :: l1, l2, by rw [heq]; rfl, ?_⟩
      intro x hx
      rcases List.mem_cons.mp hx with rfl | hx
      · exact Or.inl ha
      · exact hfst x hx
    · rw [if_neg ha] at h
      rcases List.mem_cons.mp h with rfl | h
      · exact ⟨ha, [], t, rfl, by simp⟩
      · obtain ⟨hn, l1, l2, heq, hfst⟩ := ih _ e h
        have hn1 : e.1.1 ∉ seen := fun hm => hn (by simp [hm])
        have hn2 : e.1.1 ≠ a.1.1 := fun hm => hn (by simp [hm])
        refine ⟨hn1, a :: l1, l2, by rw [heq]; rfl, ?_⟩
        intro x hx
        rcases List.mem_cons.mp hx with rfl | hx
        · exact Or.inr (fun he => hn2 he.symm)
        · rcases hfst x hx with hm | hm
          · rcases List.mem_cons.mp hm with he | hm2
            · exact Or.inr (by rw [he]; exact fun hh => hn2 hh.symm)
            · exact Or.inl hm2
          · exact Or.inr hm

theorem dropDupKeys_keys : ∀ (l : List Entry) (seen : List String),
    ((dropDupKeys l seen).map (fun e => e.1.1)).Nodup ∧
    ∀ e ∈ dropDupKeys l seen, e.1.1 ∉ seen := by
  intro l
  induction l with
  | nil => intro seen; exact ⟨List.Pairwise.nil, by simp [dropDupKeys]⟩
  | cons a t ih =>
    intro seen
    unfold dropDupKeys
    by_cases ha : a.1.1 ∈ seen
    · rw [if_pos ha]; exact ih seen
    · rw [if_neg ha]
      obtain ⟨hnd, hmem⟩ := ih (a.1.1 :: seen)
      constructor
      · rw [List.map_cons, List.nodup_cons]
        refine ⟨?_, hnd⟩
        intro hm
        rw [List.mem_map] at hm
        obtain ⟨e, he, heq⟩ := hm
        exact hmem e he (by rw [heq]; exact List.mem_cons_self _ _)
      · intro e he
        rcases List.mem_cons.mp he with rfl | he
        · exact ha
        · exact fun hm => hmem e he (List.mem_cons_of_mem _ hm)

/-- C4: every Suggestion Table row (k, o) names an owner o of maximal
occurrence count among the reference rows grouped under Join Key k, and
o sorts lexicographically first among any owners tied at that maximal
count — the stable sort by (key asc, count desc) over the
key-then-owner-ascending groupby output realizes exactly this
tie-break. -/
theorem generate_boi_suggest_majority (df out : DataFrame) (k o : String)
    (hok : generate_boi_suggest df = Except.ok out)
    (hmem : [some k, some o] ∈ out.rows) :
    (k, o) ∈ validPairs df ∧
    (∀ o' : String, (validPairs df).count (k, o') ≤ (validPairs df).count (k, o)) ∧
    (∀ o' : String, (validPairs df).count (k, o') = (validPairs df).count (k, o) →
      o = o' ∨ pyStrLt o o') := by
  simp only [generate_boi_suggest] at hok
  split at hok
  case isFalse => cases hok
  case isTrue hcols =>
  simp only [Except.ok.injEq] at hok
  subst hok
  simp only [List.mem_map, List.cons.injEq, Option.some.injEq, and_true] at hmem
  obtain ⟨e, he, hek, heo⟩ := hmem
  have he1 : e.1 = (k, o) := Prod.ext hek heo
  obtain ⟨-, l1, l2, hsplit, hfst⟩ := mem_dropDupKeys _ [] e he
  have hfst' : ∀ x ∈ l1, x.1.1 ≠ e.1.1 := by
    intro x hx
    rcases hfst x hx with hm | hm
    · cases hm
    · exact hm
  have hQ : (sortIns lt2 (groupCounts df)).Pairwise tieQ :=
    sortIns_lt2_tieQ _ (groupCounts_sorted df)
  rw [hsplit, List.pairwise_append] at hQ
  obtain ⟨hQ1, hQ2, hQcross⟩ := hQ
  rw [List.pairwise_cons] at hQ2
  obtain ⟨hQe, hQl2⟩ := hQ2
  have heS : e ∈ sortIns lt2 (groupCounts df) := by
    rw [hsplit]
    exact List.mem_append.mpr (Or.inr (List.mem_cons_self _ _))
  obtain ⟨hep, hec⟩ := mem_groupCounts.mp ((sortIns_perm lt2 _).mem_iff.mp heS)
  have key : ∀ (o' : String) (c : Nat), ((k, o'), c) ∈ sortIns lt2 (groupCounts df) →
      c ≤ e.2 ∧ (c = e.2 → o = o' ∨ pyStrLt o o') := by
    intro o' c hx
    rw [hsplit] at hx
    rcases List.mem_append.mp hx with hx | hx
    · exact absurd hek.symm (hfst' _ hx)
    rcases List.mem_cons.mp hx with hxe | hx
    · subst hxe
      simp only [Prod.mk.injEq] at he1
      exact ⟨Nat.le_refl _, fun _ => Or.inl he1.2.symm⟩
    · rcases hQe _ hx with hlt | ⟨h1, h2, h3⟩
      · rcases hlt with hkk | ⟨-, hcc⟩
        · rw [hek] at hkk
          exact absurd hkk (pyStrLt_irrefl k)
        · exact ⟨le_of_lt hcc, fun hc => absurd (hc ▸ hcc) (lt_irrefl _)⟩
      · obtain ⟨hk2, hc2⟩ := lt2_tie h1 h2
        refine ⟨le_of_eq hc2.symm, fun _ => ?_⟩
        rw [he1] at h3
        rcases h3 with hkk | ⟨-, hoo⟩
        · exact absurd hkk (pyStrLt_irrefl k)
        · exact Or.inr hoo
  refine ⟨he1 ▸ hep, ?_, ?_⟩
  · intro o'
    by_cases h0 : (k, o') ∈ validPairs df
    · have hx : ((k, o'), (validPairs df).count (k, o')) ∈ sortIns lt2 (groupCounts df) :=
        (sortIns_perm lt2 _).mem_iff.mpr (mem_groupCounts.mpr ⟨h0, rfl⟩)
      have hle := (key o' _ hx).1
      rw [← he1, ← hec]
      exact hle
    · rw [List.count_eq_zero.mpr h0]
      exact Nat.zero_le _
  · intro o' hcnt
    have hpos : 0 < (validPairs df).count (k, o) := List.count_pos_iff.mpr (he1 ▸ hep)
    have h0 : (k, o') ∈ validPairs df := List.count_pos_iff.mp (by rw [hcnt]; exact hpos)
    have hx : ((k, o'), (validPairs df).count (k, o')) ∈ sortIns lt2 (groupCounts df) :=
      (sortIns_perm lt2 _).mem_iff.mpr (mem_groupCounts.mpr ⟨h0, rfl⟩)
    apply (key o' _ hx).2
    rw [hec, he1]
    exact hcnt

theorem generate_boi_suggest_majority_witness :
    ("K1", "X") ∈ validPairs
      ⟨["SG_B1", "BRAND_OWNER_INTERNATIONAL"],
        [[some "K1", some "X"], [some "K1", some "X"], [some "K1", some "Y"]]⟩ ∧
    (validPairs ⟨["SG_B1", "BRAND_OWNER_INTERNATIONAL"],
        [[some "K1", some "X"], [some "K1", some "X"], [some "K1", some "Y"]]⟩).count ("K1", "Y") ≤
      (validPairs ⟨["SG_B1", "BRAND_OWNER_INTERNATIONAL"],
        [[some "K1", some "X"], [some "K1", some "X"], [some "K1", some "Y"]]⟩).count ("K1", "X") :=
  ⟨(generate_boi_suggest_majority
      ⟨["SG_B1", "BRAND_OWNER_INTERNATIONAL"],
        [[some "K1", some "X"], [some "K1", some "X"], [some "K1", some "Y"]]⟩
      ⟨["SG_B1", "BOI_SUGGEST"], [[some "K1", some "X"]]⟩ "K1" "X" (by rfl) (by decide)).1,
   (generate_boi_suggest_majority
      ⟨["SG_B1", "BRAND_OWNER_INTERNATIONAL"],
        [[some "K1", some "X"], [some "K1", some "X"], [some "K1", some "Y"]]⟩
      ⟨["SG_B1", "BOI_SUGGEST"], [[some "K1", some "X"]]⟩ "K1" "X" (by rfl) (by decide)).2.1 "Y"⟩

/-! ## Claim C5: the Suggestion Merger sentinel -/

theorem suggest_shape {df out : DataFrame} (hok : generate_boi_suggest df = Except.ok out) :
    out.cols = ["SG_B1", "BOI_SUGGEST"] ∧
    out.rows = (suggestEntries df).map (fun e => [some e.1.1, some e.1.2]) := by
  simp only [generate_boi_suggest] at hok
  split at hok
  · simp only [Except.ok.injEq] at hok
    subst hok
    exact ⟨rfl, rfl⟩
  · cases hok

theorem suggest_keys_nodup {df out : DataFrame}
    (hok : generate_boi_suggest df = Except.ok out) :
    (out.rows.map (fun br => getCell out.cols br "SG_B1")).Nodup := by
  obtain ⟨hc, hr⟩ := suggest_shape hok
  rw [hc, hr, List.map_map]
  have he : ((fun br => getCell ["SG_B1", "BOI_SUGGEST"] br "SG_B1") ∘
      (fun e : Entry => [some e.1.1, some e.1.2])) =
      ((fun x : String => (some x : Cell)) ∘ (fun e : Entry => e.1.1)) := rfl
  rw [he, ← List.map_map]
  exact ((dropDupKeys_keys (sortIns lt2 (groupCounts df)) []).1).map
    (Option.some_injective String)

theorem filter_key_subsingleton {cols : List String} {rows : List (List Cell)} (k : Cell)
    (h : (rows.map (fun br => getCell cols br "SG_B1")).Nodup) :
    (rows.filter (fun br => decide (getCell cols br "SG_B1" = k))).length ≤ 1 := by
  induction rows with
  | nil => simp
  | cons a t ih =>
    rw [List.map_cons, List.nodup_cons] at h
    obtain ⟨ha, ht⟩ := h
    rw [List.filter_cons]
    by_cases hk : getCell cols a "SG_B1" = k
    · rw [if_pos (by simp [hk])]
      simp only [List.length_cons]
      have hnil : (t.filter (fun br => decide (getCell cols br "SG_B1" = k))) = [] := by
        rw [List.filter_eq_nil_iff]
        intro b hb
        simp only [decide_eq_true_eq]
        intro hbk
        apply ha
        rw [List.mem_map]
        exact ⟨b, hb, by rw [hbk, hk]⟩
      rw [hnil]
      simp
    · rw [if_neg (by simp [hk])]
      exact ih ht

theorem mergeRow_length (euCols : List String) (bdf : DataFrame) (nonkey : List String)
    (r : List Cell)
    (h : (bdf.rows.map (fun br => getCell bdf.cols br "SG_B1")).Nodup) :
    (mergeRow euCols bdf nonkey r).length = 1 := by
  simp only [mergeRow]
  cases hms : bdf.rows.filter
      (fun br => decide (getCell bdf.cols br "SG_B1" = getCell euCols r "SG_B1")) with
  | nil => simp [hms]
  | cons b t =>
    have hlen := filter_key_subsingleton (getCell euCols r "SG_B1") h
    rw [hms] at hlen
    simp only [List.length_cons] at hlen
    have ht : t = [] := List.eq_nil_of_length_eq_zero (by omega)
    subst ht
    simp [hms]

theorem length_one_headD {α : Type} (l : List α) (d : α) (h : l.length = 1) :
    l = [l.headD d] := by
  cases l with
  | nil => cases h
  | cons a t =>
    simp only [List.length_cons] at h
    have : t = [] := List.eq_nil_of_length_eq_zero (by omega)
    subst this
    rfl

theorem flatMap_singleton {α β : Type} (l : List α) (f : α → List β) (d : β)
    (h : ∀ x ∈ l, f x = [(f x).headD d]) :
    l.flatMap f = l.map (fun x => (f x).headD d) := by
  induction l with
  | nil => rfl
  | cons a t ih =>
    rw [List.flatMap_cons, List.map_cons, h a (by simp)]
    simp only [List.headD_cons, List.cons_append, List.nil_append]
    rw [ih (fun x hx => h x (by simp [hx]))]

/-- C5: a primary row whose Join Key matches no Suggestion Entry —
including any row whose Join Key is null, since the Suggestion Table
never holds a null key — ends up with exactly the sentinel string
"SG_B1 not present in OGRDS" in its BOI_SUGGEST cell. -/
theorem merge_boi_sentinel (og bdf eu m : DataFrame) (i : Nat) (r : List Cell)
    (hb : generate_boi_suggest og = Except.ok bdf)
    (hm : merge_boi_suggest eu bdf = Except.ok m)
    (hwf : eu.wf)
    (hnb : "BOI_SUGGEST" ∉ eu.cols)
    (hr : eu.rows[i]? = some r)
    (hnomatch : getCell eu.cols r "SG_B1" = none ∨
      ∀ br ∈ bdf.rows, getCell bdf.cols br "SG_B1" ≠ getCell eu.cols r "SG_B1") :
    m.rows[i]? = some (r ++ [some "SG_B1 not present in OGRDS"]) := by
  obtain ⟨hcols, hrows⟩ := suggest_shape hb
  have hnk : bdf.cols.filter (fun c => decide (c ≠ "SG_B1")) = ["BOI_SUGGEST"] := by
    rw [hcols]
    rfl
  have hnodup := suggest_keys_nodup hb
  simp only [merge_boi_suggest] at hm
  split at hm
  case isFalse => cases hm
  case isTrue hguard =>
  rw [hnk, colIdx_append_self hnb] at hm
  simp only [Except.ok.injEq] at hm
  subst hm
  -- every merged row group is a singleton
  have hsing : ∀ x ∈ eu.rows, mergeRow eu.cols bdf ["BOI_SUGGEST"] x =
      [(mergeRow eu.cols bdf ["BOI_SUGGEST"] x).headD []] := by
    intro x _
    exact length_one_headD _ _ (mergeRow_length eu.cols bdf _ x hnodup)
  show ((eu.rows.flatMap (mergeRow eu.cols bdf ["BOI_SUGGEST"])).map
      (fillAt eu.cols.length (some "SG_B1 not present in OGRDS")))[i]? = _
  rw [flatMap_singleton _ _ [] hsing, List.map_map, List.getElem?_map, hr]
  simp only [Option.map_some', Function.comp]
  -- this row is unmatched, so its merge group is the null-extended row
  have hms : bdf.rows.filter
      (fun br => decide (getCell bdf.cols br "SG_B1" = getCell eu.cols r "SG_B1")) = [] := by
    rw [List.filter_eq_nil_iff]
    intro br hbr
    simp only [decide_eq_true_eq]
    rcases hnomatch with hn | hn
    · rw [hn]
      rw [hrows] at hbr
      simp only [List.mem_map] at hbr
      obtain ⟨e, _, rfl⟩ := hbr
      rw [hcols]
      intro hcell
      cases hcell
    · exact hn br hbr
  have hmr : mergeRow eu.cols bdf ["BOI_SUGGEST"] r = [r ++ [none]] := by
    simp only [mergeRow, hms]
    rfl
  rw [hmr]
  simp only [List.headD_cons]
  have hrl : r.length = eu.cols.length := hwf r (List.getElem?_mem hr)
  simp only [fillAt]
  rw [← hrl, getD_append_len, set_append_len]

theorem merge_boi_sentinel_witness :
    (DataFrame.mk ["SG_B1", "BOI_SUGGEST"]
        [[some "Z", some "SG_B1 not present in OGRDS"]]).rows[0]? =
      some ([some "Z"] ++ [some "SG_B1 not present in OGRDS"]) :=
  merge_boi_sentinel
    ⟨["SG_B1", "BRAND_OWNER_INTERNATIONAL"], [[some "K", some "O"]]⟩
    ⟨["SG_B1", "BOI_SUGGEST"], [[some "K", some "O"]]⟩
    ⟨["SG_B1"], [[some "Z"]]⟩
    ⟨["SG_B1", "BOI_SUGGEST"], [[some "Z", some "SG_B1 not present in OGRDS"]]⟩
    0 [some "Z"] (by rfl) (by rfl) (by decide) (by decide) (by rfl)
    (Or.inr (by decide))
